import Mathlib

/-!
Verification development for the infographic diagram engine
(`backend/core/diagrams/infographic.py`): spec normalization, greedy text
wrapping, layout geometry, connector generation and the dispatcher.

Modelling conventions:
* Python values reachable inside a raw diagram spec are embedded as the
  inductive `Val` (JSON-like: None / str / int / bool / list / dict).
  A top-level raw spec is a dict, embedded as an association list `PyDict`
  (the source's entry point annotates `raw_spec: Dict[str, Any]`).
* Python strings are Lean `String`s; `str.strip()` is `pyStrip`,
  slicing `s[:n]` is `pyTake`, truthiness is `pyTruthy`, and the
  short-circuiting `a or b` is `py_or`.
* Pixel text measurement (`draw.textlength`) is external (Pillow); it is
  modelled as an arbitrary function `m : String → Nat` supplied as a
  parameter, so theorems quantify over every font/measure.
* `str()`/`repr()` of non-string values: the decimal rendering of ints and
  the `None`/`True`/`False` spellings are exact; the rendering of nested
  lists/dicts is simplified (strings are quote-wrapped without escape
  handling).  Only emptiness-after-strip of these renderings is ever
  relevant, and that is preserved.
-/

/-- Python `str.isspace` characters relevant to `strip()` (ASCII whitespace;
Unicode whitespace beyond these is not exercised by the engine). -/
def pyIsSpace (c : Char) : Bool :=
  c = ' ' || c = '\t' || c = '\n' || c = '\r' || c = '\x0b' || c = '\x0c'

/-- Strip `pyIsSpace` characters from both ends of a character list. -/
def stripList (l : List Char) : List Char :=
  ((l.dropWhile pyIsSpace).reverse.dropWhile pyIsSpace).reverse

/-- Python `s.strip()`. -/
def pyStrip (s : String) : String := ⟨stripList s.data⟩

/-- Python slicing `s[:n]` (first `n` code points). -/
def pyTake (s : String) (n : Nat) : String := ⟨s.data.take n⟩

/-- JSON-like Python values that can appear inside a raw diagram spec. -/
inductive Val where
  | vnull
  | vstr (s : String)
  | vnum (n : Int)
  | vbool (b : Bool)
  | vlist (xs : List Val)
  | vdict (fields : List (String × Val))

/-- A Python dict, as passed to the normalizers (`Dict[str, Any]`). -/
abbrev PyDict := List (String × Val)

/-- Python truthiness (`bool(v)`): None, "", 0, False, [], and an empty dict
are falsy; everything else is truthy. -/
def pyTruthy : Val → Bool
  | .vnull => false
  | .vstr s => s ≠ ""
  | .vnum n => n ≠ 0
  | .vbool b => b
  | .vlist xs => !xs.isEmpty
  | .vdict fs => !fs.isEmpty

/-- Python short-circuit `a or b`. -/
def py_or (a b : Val) : Val := if pyTruthy a then a else b

/-- Python `d.get(key)` on a dict: the stored value, else `None`. -/
def dict_get : PyDict → String → Val
  | [], _ => .vnull
  | (k, v) :: rest, key => if k = key then v else dict_get rest key

mutual
/-- Python `repr(v)` (simplified for strings/containers, see file header). -/
def pyRepr : Val → String
  | .vnull => "None"
  | .vstr s => "\"" ++ s ++ "\""
  | .vnum n => toString n
  | .vbool b => if b then "True" else "False"
  | .vlist xs => "[" ++ pyReprSeq xs ++ "]"
  | .vdict fs => "\x7b" ++ pyReprFields fs ++ "\x7d"

/-- Comma-joined reprs of a list's elements. -/
def pyReprSeq : List Val → String
  | [] => ""
  | [x] => pyRepr x
  | x :: y :: rest => pyRepr x ++ ", " ++ pyReprSeq (y :: rest)

/-- Comma-joined reprs of a dict's entries. -/
def pyReprFields : List (String × Val) → String
  | [] => ""
  | [(k, v)] => "\"" ++ k ++ "\": " ++ pyRepr v
  | (k, v) :: e :: rest => "\"" ++ k ++ "\": " ++ pyRepr v ++ ", " ++ pyReprFields (e :: rest)
end

/-- Python `str(v)`. -/
def pyStr : Val → String
  | .vstr s => s
  | v => pyRepr v

/-- Element filter of `_normalize_list`'s comprehension:
`x is not None and str(x).strip()`. -/
def keep_item (x : Val) : Bool :=
  match x with
  | .vnull => false
  | _ => if pyStrip (pyStr x) = "" then false else true

/-- Source `_normalize_list(value, limit=…, default=…)`: a list is filtered
to its stripped, non-empty entries and truncated; a non-blank bare string
becomes a singleton; anything else falls back to the default list. -/
def normalize_list (value : Val) (limit : Nat) (default : List String) : List String :=
  match value with
  | .vlist xs => ((xs.filter keep_item).map (fun x => pyStrip (pyStr x))).take limit
  | .vstr s => if pyStrip s = "" then default.take limit else [pyStrip s].take limit
  | _ => default.take limit

/-- A normalized content box (a sequential stage or a framework box):
`\x7b"title": …, "bullets": […]\x7d` in the source. -/
structure CBox where
  title : String
  bullets : List String
deriving Repr, DecidableEq

/-- Normalized Sequential-Flow (technical-route) spec. -/
structure TRSpec where
  title : String
  stages : List CBox
deriving Repr, DecidableEq

/-- Normalized Hierarchical-Framework (research-framework) spec. -/
structure RFSpec where
  title : String
  goal : CBox
  hypotheses : CBox
  support : CBox
  work_packages : List CBox
  outcomes : CBox
deriving Repr, DecidableEq

/-- Default bullets substituted for a kept stage with no usable bullets. -/
def default_stage_bullets : List String := ["关键方法与技术路线", "数据/实验与验证", "阶段产出与指标"]

/-- Fixed 3-stage default skeleton (task breakdown, method implementation,
integration & evaluation) installed when fewer than 3 stages survive. -/
def default_stage_skeleton : List CBox :=
  [⟨"任务拆解", ["明确目标与指标", "梳理关键问题", "分解任务包"]⟩,
   ⟨"方法实现", ["核心方法设计", "关键技术实现", "实验/仿真验证"]⟩,
   ⟨"集成评估", ["系统集成与优化", "对标评估与迭代", "形成成果输出"]⟩]

/-- Title of a raw stage entry: `str(s.get("title") or s.get("name") or "").strip()`. -/
def stage_title_of (fs : PyDict) : String :=
  pyStrip (pyStr (py_or (dict_get fs "title") (py_or (dict_get fs "name") (.vstr ""))))

/-- Bullets of a raw stage entry:
`_normalize_list(s.get("bullets") or s.get("items") or s.get("lines"), limit=4)`. -/
def stage_bullets_of (fs : PyDict) : List String :=
  normalize_list (py_or (dict_get fs "bullets") (py_or (dict_get fs "items") (dict_get fs "lines"))) 4 []

/-- Whether the stage loop keeps a raw entry: it must be a dict with a
non-trivial title or non-trivial bullets (`if not st_title and not bullets: continue`). -/
def stage_keeps (s : Val) : Bool :=
  match s with
  | .vdict fs => stage_title_of fs ≠ "" || stage_bullets_of fs ≠ []
  | _ => false

/-- Normalization of one kept stage, at position `i` (0-based) among the
already-kept stages: default title `阶段 (i+1)`, default bullets, title cap 32. -/
def norm_stage (i : Nat) (s : Val) : CBox :=
  match s with
  | .vdict fs =>
    let t := stage_title_of fs
    let bl := stage_bullets_of fs
    let t2 := if t = "" then "阶段 " ++ toString (i + 1) else t
    let bl2 := if bl = [] then default_stage_bullets else bl
    ⟨pyTake t2 32, bl2⟩
  | _ => ⟨"", []⟩

/-- The stage loop of `_normalize_technical_route_spec`: keeps qualifying
entries, breaking once 6 have been kept. -/
def norm_stages_loop : List Val → List CBox → List CBox
  | [], acc => acc
  | s :: rest, acc =>
    if stage_keeps s then
      let acc2 := acc ++ [norm_stage acc.length s]
      if 6 ≤ acc2.length then acc2 else norm_stages_loop rest acc2
    else norm_stages_loop rest acc

/-- Raw stage list: `spec.get("stages") or spec.get("steps") or []`,
coerced to `[]` if not a list. -/
def raw_stage_list (spec : PyDict) : List Val :=
  match py_or (dict_get spec "stages") (py_or (dict_get spec "steps") (.vlist [])) with
  | .vlist xs => xs
  | _ => []

/-- Source `_normalize_technical_route_spec(spec, title)`. -/
def normalize_technical_route_spec (spec : PyDict) (title : String) : TRSpec :=
  let norm := norm_stages_loop (raw_stage_list spec) []
  ⟨title, if norm.length < 3 then default_stage_skeleton else norm⟩

/-- Inner helper `_box` of `_normalize_research_framework_spec`: a singleton
framework box is read from `spec[key]`, defaulted field-wise, title cap 28. -/
def norm_box (spec : PyDict) (key : String) (default_title : String)
    (default_bullets : List String) : CBox :=
  let raw := py_or (dict_get spec key) (.vdict [])
  let fs : PyDict := match raw with | .vdict fs => fs | _ => []
  let t0 := pyStrip (pyStr (py_or (dict_get fs "title") (.vstr default_title)))
  let t := if t0 = "" then default_title else t0
  let bl := normalize_list (py_or (dict_get fs "bullets") (py_or (dict_get fs "items") (dict_get fs "lines"))) 4 default_bullets
  ⟨pyTake t 28, bl⟩

/-- Title of a raw work-package entry: `str(w.get("title") or w.get("name") or "").strip()`. -/
def wp_title_of (fs : PyDict) : String := stage_title_of fs

/-- Bullets of a raw work-package entry (same alias chain as stages). -/
def wp_bullets_of (fs : PyDict) : List String := stage_bullets_of fs

/-- Whether the work-package loop keeps a raw entry. -/
def wp_keeps (s : Val) : Bool :=
  match s with
  | .vdict fs => wp_title_of fs ≠ "" || wp_bullets_of fs ≠ []
  | _ => false

/-- Default bullets substituted for a kept work package with no usable bullets. -/
def default_wp_bullets : List String := ["研究内容与任务", "关键方法与实验", "阶段成果与指标"]

/-- Normalization of one kept work package at position `i` (0-based):
default title `WP(i+1)`, default bullets, title cap 28. -/
def norm_wp (i : Nat) (s : Val) : CBox :=
  match s with
  | .vdict fs =>
    let t := wp_title_of fs
    let bl := wp_bullets_of fs
    let t2 := if t = "" then "WP" ++ toString (i + 1) else t
    let bl2 := if bl = [] then default_wp_bullets else bl
    ⟨pyTake t2 28, bl2⟩
  | _ => ⟨"", []⟩

/-- The work-package loop: keeps qualifying entries, breaking once 3 are kept. -/
def norm_wps_loop : List Val → List CBox → List CBox
  | [], acc => acc
  | s :: rest, acc =>
    if wp_keeps s then
      let acc2 := acc ++ [norm_wp acc.length s]
      if 3 ≤ acc2.length then acc2 else norm_wps_loop rest acc2
    else norm_wps_loop rest acc

/-- Default padding box `WP(idx) 研究内容` appended while fewer than 3
work packages are present. -/
def wp_default (idx : Nat) : CBox :=
  ⟨"WP" ++ toString idx ++ " 研究内容", default_wp_bullets⟩

/-- Fuelled body of the `while len(norm_wps) < 3` padding loop; each pass
appends one default box, so 3 passes bound the loop from any start. -/
def pad_wps_go : Nat → List CBox → List CBox
  | 0, l => l
  | fuel + 1, l =>
    if l.length < 3 then pad_wps_go fuel (l ++ [wp_default (l.length + 1)]) else l

/-- The `while len(norm_wps) < 3` padding loop of the source. -/
def pad_wps (l : List CBox) : List CBox := pad_wps_go 3 l

/-- Raw work-package list: `spec.get("work_packages") or spec.get("modules")
or spec.get("wps") or []`, coerced to `[]` if not a list. -/
def raw_wp_list (spec : PyDict) : List Val :=
  match py_or (dict_get spec "work_packages") (py_or (dict_get spec "modules") (py_or (dict_get spec "wps") (.vlist []))) with
  | .vlist xs => xs
  | _ => []

/-- Source `_normalize_research_framework_spec(spec, title)`. -/
def normalize_research_framework_spec (spec : PyDict) (title : String) : RFSpec :=
  let goal := norm_box spec "goal" "研究目标" ["凝练核心目标", "明确创新点", "量化考核指标"]
  let hypotheses := norm_box spec "hypotheses" "科学问题/假设" ["提出关键科学问题", "给出可检验假设", "定义验证路径"]
  let support := norm_box spec "support" "支撑条件" ["研究基础与团队", "数据/平台/设备", "合作与资源保障"]
  let outcomes := norm_box spec "outcomes" "预期成果" ["论文/专利/标准", "原型/系统/平台", "数据集/开源工具"]
  let norm_wps := pad_wps (norm_wps_loop (raw_wp_list spec) [])
  ⟨title, goal, hypotheses, support, norm_wps, outcomes⟩

/-- Encoding of a normalized content box back into the raw-value world
(the dict the source appends: title then bullets). -/
def cbox_to_val (b : CBox) : Val :=
  .vdict [("title", .vstr b.title), ("bullets", .vlist (b.bullets.map Val.vstr))]

/-- Encoding of a normalized Sequential-Flow spec as a raw dict, for
re-normalization (field order as in the source's return statement). -/
def tr_to_val (s : TRSpec) : PyDict :=
  [("title", .vstr s.title), ("stages", .vlist (s.stages.map cbox_to_val))]

/-- Encoding of a normalized Hierarchical-Framework spec as a raw dict. -/
def rf_to_val (s : RFSpec) : PyDict :=
  [("title", .vstr s.title), ("goal", cbox_to_val s.goal),
   ("hypotheses", cbox_to_val s.hypotheses), ("support", cbox_to_val s.support),
   ("work_packages", .vlist (s.work_packages.map cbox_to_val)),
   ("outcomes", cbox_to_val s.outcomes)]

/-- Character loop of `_wrap_text`: `lines`/`current` accumulate exactly as
in the source (newline flushes a non-empty current line; the first character
of a line is placed without a width check; otherwise the trial string is
kept while it measures within budget, else the line is flushed). -/
def wrap_loop (m : String → Nat) (max_width : Nat) :
    List Char → List String → String → List String
  | [], lines, current => if current = "" then lines else lines ++ [current]
  | ch :: rest, lines, current =>
    if ch = '\n' then
      wrap_loop m max_width rest (if current = "" then lines else lines ++ [current]) ""
    else if current = "" then
      wrap_loop m max_width rest lines (String.singleton ch)
    else
      let trial := current.push ch
      if m trial ≤ max_width then wrap_loop m max_width rest lines trial
      else wrap_loop m max_width rest (lines ++ [current]) (String.singleton ch)

/-- Source `_wrap_text(draw, text, font, max_width)`; the draw/font pair is
abstracted into the measure `m`. -/
def wrap_text (m : String → Nat) (text : String) (max_width : Nat) : List String :=
  let s := pyStrip text
  if s = "" then [] else wrap_loop m max_width s.data [] ""

/-- Source `_wrap_bullet`: measures the marker `"• "`, wraps the stripped
text in the remaining budget (at least 1), then prefixes the first line with
the marker and continuation lines with `len("• ")` spaces.  The `bullet`
keyword parameter always takes its default `"• "` at every call site and is
inlined here. -/
def wrap_bullet (m : String → Nat) (text : String) (max_width : Nat) : List String :=
  let raw := pyStrip text
  if raw = "" then []
  else
    let inner := max 1 (max_width - m "• ")
    match wrap_text m raw inner with
    | [] => []
    | w :: ws => ("• " ++ w) :: ws.map (fun ln => String.mk (List.replicate "• ".length ' ') ++ ln)

/-- Modelled from the spec's words (§4.1), as the reference definition for
the refinement claim about the wrapper: characters are appended to the
current line while `m (current+char) ≤ max_width`, otherwise the current
line is closed and a new line starts with that character; an embedded
newline closes the current line regardless of width; closing an empty
current line emits nothing. -/
def greedy_spec_loop (m : String → Nat) (max_width : Nat) :
    List Char → List String → String → List String
  | [], lines, current => if current = "" then lines else lines ++ [current]
  | ch :: rest, lines, current =>
    if ch = '\n' then
      greedy_spec_loop m max_width rest (if current = "" then lines else lines ++ [current]) ""
    else if m (current.push ch) ≤ max_width then
      greedy_spec_loop m max_width rest lines (current.push ch)
    else
      greedy_spec_loop m max_width rest (if current = "" then lines else lines ++ [current])
        (String.singleton ch)

/-- Modelled from the spec's words (§4.1): the greedy reference wrapper.
It consumes the text as given (the spec states no preprocessing of the
input) except that, per the spec's edge case, empty or whitespace-only
input yields an empty line list. -/
def wrap_greedy_spec (m : String → Nat) (text : String) (max_width : Nat) : List String :=
  if pyStrip text = "" then [] else greedy_spec_loop m max_width text.data [] ""

/-- A positioned, sized content box of the layout stage (the geometry and
text parts of the source's layout dicts; fill/stroke colours, which no claim
touches, are omitted). -/
structure LayoutBox where
  x : Nat
  y : Nat
  w : Nat
  h : Nat
  title : String
  lines : List String
deriving Repr

/-- Body lines of a sequential stage box: each bullet is bullet-wrapped at
the body budget `box_w - pad*2 = 1424 - 68`, with a default bullet when the
result is empty. -/
def stage_body_lines (m : String → Nat) (st : CBox) : List String :=
  let ls := (st.bullets.map (fun b => wrap_bullet m b (1424 - 68))).flatten
  if ls = [] then wrap_bullet m "关键方法与技术路线" (1424 - 68) else ls

/-- Measurement/layout loop of `_render_technical_route` (width 1600,
margin_x 88, top 80, gap 26, arrow_gap 18, pad 34, header_h 56, line_h 30):
stage `i` is laid out at `y`, and the cursor advances by the box height plus
`gap + arrow_gap`. -/
def tech_stage_layout_aux (m : String → Nat) : List CBox → Nat → Nat → List LayoutBox
  | [], _, _ => []
  | st :: rest, i, y =>
    let t0 := pyStrip (if st.title = "" then "阶段 " ++ toString (i + 1) else st.title)
    let t := if t0 = "" then "阶段 " ++ toString (i + 1) else t0
    let lines := stage_body_lines m st
    let h := 56 + (lines.length * 30 + 10) + 18
    ⟨88, y, 1424, h, t, lines⟩ :: tech_stage_layout_aux m rest (i + 1) (y + h + 26 + 18)

/-- Stage layout of the Sequential-Flow renderer, starting at `y = top + 70`. -/
def tech_stage_layout (m : String → Nat) (stages : List CBox) : List LayoutBox :=
  tech_stage_layout_aux m stages 0 (80 + 70)

/-- Adjacent pairs of a box list: the arrows drawn between consecutive
stages (`for a in range(len(stage_layout) - 1)`). -/
def adjacent_pairs : List LayoutBox → List (LayoutBox × LayoutBox)
  | [] => []
  | [_] => []
  | a :: b :: rest => (a, b) :: adjacent_pairs (b :: rest)

/-- Connectors of the Sequential-Flow layout: one per adjacent stage pair. -/
def tech_connectors (layout : List LayoutBox) : List (LayoutBox × LayoutBox) :=
  adjacent_pairs layout

/-- Source `_box_height`: wrapped body lines of a framework box at column
width `max_w` (inner budget `max_w - pad*2 = max_w - 56`), with a filler
line when empty, and the resulting height `header_h + body_h + 18`
(header_h 54, line_h 30). -/
def box_height_lines (m : String → Nat) (b : CBox) (max_w : Nat) : Nat × List String :=
  let lines := (b.bullets.map (fun x => wrap_bullet m x (max_w - 56))).flatten
  let lines := if lines = [] then wrap_bullet m "（内容依据已知需求自动生成）" (max_w - 56) else lines
  (54 + (lines.length * 30 + 10) + 18, lines)

/-- Geometry of the Hierarchical-Framework layout. -/
structure RFLayoutData where
  goal_box : LayoutBox
  hyp_box : LayoutBox
  sup_box : LayoutBox
  wp_boxes : List LayoutBox
  out_box : LayoutBox
deriving Repr

/-- Layout stage of `_render_research_framework` (width 1600, margin 88,
gap 26, top 80, so `inner_w = 1424`, two-column width `(1424-26)/2 = 699`,
three-column width `(1424-52)/3 = 457`): goal row, hypotheses/support row
normalized to the row maximum, work-package row normalized to the row
maximum, outcomes row. -/
def rf_layout (m : String → Nat) (s : RFSpec) : RFLayoutData :=
  let gp := box_height_lines m s.goal 1424
  let goal_box : LayoutBox :=
    ⟨88, 150, 1424, gp.1, if s.goal.title = "" then "研究目标" else s.goal.title, gp.2⟩
  let y2 := 150 + gp.1 + 26 + 10
  let hp := box_height_lines m s.hypotheses 699
  let sp := box_height_lines m s.support 699
  let row_h := max hp.1 sp.1
  let hyp_box : LayoutBox :=
    ⟨88, y2, 699, row_h, if s.hypotheses.title = "" then "科学问题/假设" else s.hypotheses.title, hp.2⟩
  let sup_box : LayoutBox :=
    ⟨88 + 699 + 26, y2, 699, row_h, if s.support.title = "" then "支撑条件" else s.support.title, sp.2⟩
  let y3 := y2 + row_h + 26 + 10
  let wp_count := if s.work_packages.isEmpty then 3 else min 3 s.work_packages.length
  let wp_entry := fun (i : Nat) => s.work_packages.getD i (wp_default (i + 1))
  let wp_raw := (List.range wp_count).map (fun i =>
    let e := wp_entry i
    let p := box_height_lines m e 457
    (⟨88 + i * (457 + 26), y3, 457, p.1,
      if e.title = "" then "WP" ++ toString (i + 1) else e.title, p.2⟩ : LayoutBox))
  let wp_max := (wp_raw.map (fun b => b.h)).foldl max 0
  let wp_boxes := wp_raw.map (fun b => { b with h := wp_max })
  let y4 := y3 + wp_max + 26 + 10
  let op := box_height_lines m s.outcomes 1424
  let out_box : LayoutBox :=
    ⟨88, y4, 1424, op.1, if s.outcomes.title = "" then "预期成果" else s.outcomes.title, op.2⟩
  ⟨goal_box, hyp_box, sup_box, wp_boxes, out_box⟩

/-- Connectors of the Hierarchical-Framework layout, in draw order:
goal→hypotheses, goal→support, then hypotheses→wp and support→wp for each
work package, then each work package→outcomes. -/
def rf_connectors (L : RFLayoutData) : List (LayoutBox × LayoutBox) :=
  [(L.goal_box, L.hyp_box), (L.goal_box, L.sup_box)]
    ++ (L.wp_boxes.map (fun w => [(L.hyp_box, w), (L.sup_box, w)])).flatten
    ++ L.wp_boxes.map (fun w => (w, L.out_box))

/-- Output of a successful dispatch: the normalized spec together with the
computed layout and connectors (the raster/vector encodings of these
primitives are external I/O and carry no further structure). -/
inductive InfographicOutput where
  | technical (spec : TRSpec) (layout : List LayoutBox)
      (connectors : List (LayoutBox × LayoutBox))
  | research (spec : RFSpec) (layout : RFLayoutData)
      (connectors : List (LayoutBox × LayoutBox))

/-- Source dispatcher `render_infographic_png_svg(diagram_type, raw_spec,
title)`: strips the diagram type (`(diagram_type or "").strip()`), selects
normalizer and renderer, and raises `ValueError` otherwise.  `raw_spec or
\x7b\x7d` is the identity on the dict domain. -/
def render_infographic_png_svg (m : String → Nat) (diagram_type : String)
    (raw_spec : PyDict) (title : String) : Except String InfographicOutput :=
  let dt := pyStrip diagram_type
  if dt = "technical_route" then
    let spec := normalize_technical_route_spec raw_spec title
    let layout := tech_stage_layout m spec.stages
    .ok (.technical spec layout (tech_connectors layout))
  else if dt = "research_framework" then
    let spec := normalize_research_framework_spec raw_spec title
    let layout := rf_layout m spec
    .ok (.research spec layout (rf_connectors layout))
  else .error ("Unsupported diagram_type: " ++ diagram_type)

/-- Whether a dispatch result is an error. -/
def is_error {α : Type} (r : Except String α) : Bool :=
  match r with
  | .error _ => true
  | .ok _ => false

/-- Character-count measure, a concrete instance of the abstract text
measure (every glyph one unit wide). -/
def char_count_measure (s : String) : Nat := s.length

/-- Weighted measure giving the bullet glyph a larger advance than other
glyphs, as real proportional fonts do. -/
def bullet_weight_measure (s : String) : Nat :=
  s.data.foldl (fun a c => a + (if c = '•' then 10 else 5)) 0

/-- Position-indexed stage normalization map, used to characterize the loop. -/
def map_stage_from (i : Nat) : List Val → List CBox
  | [] => []
  | s :: rest => norm_stage i s :: map_stage_from (i + 1) rest

/-- Position-indexed work-package normalization map. -/
def map_wp_from (i : Nat) : List Val → List CBox
  | [] => []
  | s :: rest => norm_wp i s :: map_wp_from (i + 1) rest

/-- The padding boxes appended after `k` work packages were kept. -/
def wp_pad_list (k : Nat) : List CBox :=
  (List.range (3 - k)).map (fun j => wp_default (k + j + 1))

/-- Invariant of every normalized sequential stage: non-empty title of at
most 32 characters, 1 to 4 bullets, each bullet stripped and non-empty. -/
def stage_inv (b : CBox) : Prop :=
  b.title ≠ "" ∧ b.title.data.length ≤ 32 ∧ b.bullets ≠ [] ∧ b.bullets.length ≤ 4 ∧
    ∀ x ∈ b.bullets, pyStrip x = x ∧ x ≠ ""

instance stage_inv_decidable (b : CBox) : Decidable (stage_inv b) := by
  unfold stage_inv; infer_instance

/-- Invariant of every normalized work package: like a stage but with
title cap 28. -/
def wp_inv (b : CBox) : Prop :=
  b.title ≠ "" ∧ b.title.data.length ≤ 28 ∧ b.bullets ≠ [] ∧ b.bullets.length ≤ 4 ∧
    ∀ x ∈ b.bullets, pyStrip x = x ∧ x ≠ ""

instance wp_inv_decidable (b : CBox) : Decidable (wp_inv b) := by
  unfold wp_inv; infer_instance

/-- Invariant of every normalized framework singleton box (goal, hypotheses,
support, outcomes): the bullets list may be empty here. -/
def fbox_inv (b : CBox) : Prop :=
  b.title ≠ "" ∧ b.title.data.length ≤ 28 ∧ b.bullets.length ≤ 4 ∧
    ∀ x ∈ b.bullets, pyStrip x = x ∧ x ≠ ""

instance fbox_inv_decidable (b : CBox) : Decidable (fbox_inv b) := by
  unfold fbox_inv; infer_instance

/-- Conditions under which re-normalizing an encoded framework singleton box
reproduces it exactly. -/
def box_replayable (b : CBox) : Prop :=
  b.title ≠ "" ∧ b.title.data.length ≤ 28 ∧ pyStrip b.title = b.title
    ∧ b.bullets ≠ [] ∧ b.bullets.length ≤ 4 ∧ ∀ x ∈ b.bullets, pyStrip x = x ∧ x ≠ ""

instance box_replayable_decidable (b : CBox) : Decidable (box_replayable b) := by
  unfold box_replayable; infer_instance

/-- Renderable Sequential-Flow spec: 3 to 6 well-formed stages. -/
def renderable_tr (s : TRSpec) : Prop :=
  3 ≤ s.stages.length ∧ s.stages.length ≤ 6 ∧ ∀ b ∈ s.stages, stage_inv b

/-- Renderable Hierarchical-Framework spec: four well-formed singleton
boxes and exactly 3 well-formed work packages. -/
def renderable_rf (s : RFSpec) : Prop :=
  (s.goal.title ≠ "" ∧ s.goal.title.data.length ≤ 28 ∧ s.goal.bullets.length ≤ 4
      ∧ ∀ x ∈ s.goal.bullets, pyStrip x = x ∧ x ≠ "")
    ∧ (s.hypotheses.title ≠ "" ∧ s.hypotheses.title.data.length ≤ 28
      ∧ s.hypotheses.bullets.length ≤ 4
      ∧ ∀ x ∈ s.hypotheses.bullets, pyStrip x = x ∧ x ≠ "")
    ∧ (s.support.title ≠ "" ∧ s.support.title.data.length ≤ 28
      ∧ s.support.bullets.length ≤ 4
      ∧ ∀ x ∈ s.support.bullets, pyStrip x = x ∧ x ≠ "")
    ∧ (s.outcomes.title ≠ "" ∧ s.outcomes.title.data.length ≤ 28
      ∧ s.outcomes.bullets.length ≤ 4
      ∧ ∀ x ∈ s.outcomes.bullets, pyStrip x = x ∧ x ≠ "")
    ∧ s.work_packages.length = 3 ∧ ∀ b ∈ s.work_packages, wp_inv b

/-! Helper lemmas: strings and stripping. -/

theorem string_eq_iff_data {s t : String} : s = t ↔ s.data = t.data := by
  constructor
  · intro h; rw [h]
  · intro h; cases s; cases t; exact congrArg String.mk h

theorem dropWhile_head?_not (p : Char → Bool) :
    ∀ (l : List Char) (c : Char), (l.dropWhile p).head? = some c → p c = false := by
  intro l
  induction l with
  | nil => intro c h; simp [List.dropWhile] at h
  | cons a l ih =>
    intro c h
    by_cases hp : p a
    · rw [List.dropWhile_cons_of_pos hp] at h; exact ih c h
    · rw [List.dropWhile_cons_of_neg hp] at h
      simp at h
      subst h; simpa using hp

theorem dropWhile_eq_self_of_head (p : Char → Bool) (l : List Char)
    (h : ∀ c, l.head? = some c → p c = false) : l.dropWhile p = l := by
  cases l with
  | nil => rfl
  | cons a l => rw [List.dropWhile_cons_of_neg]; simpa using h a rfl

theorem stripList_idem (l : List Char) : stripList (stripList l) = stripList l := by
  unfold stripList
  set p := pyIsSpace with hp
  set A := l.dropWhile p with hA
  set D := A.reverse.dropWhile p with hD
  have hsplit : A.reverse.takeWhile p ++ D = A.reverse := by
    rw [hD]; exact List.takeWhile_append_dropWhile p A.reverse
  have hArev : A = D.reverse ++ (A.reverse.takeWhile p).reverse := by
    have h2 := congrArg List.reverse hsplit
    simpa using h2.symm
  have step1 : D.reverse.dropWhile p = D.reverse := by
    apply dropWhile_eq_self_of_head
    intro c hc
    cases hDr : D.reverse with
    | nil => rw [hDr] at hc; simp at hc
    | cons d rest =>
      rw [hDr] at hc
      simp at hc
      rw [← hc]
      have hAhead : A.head? = some d := by
        rw [hArev, hDr]; rfl
      rw [hA] at hAhead
      exact dropWhile_head?_not p l d hAhead
  rw [step1, List.reverse_reverse]
  have step2 : D.dropWhile p = D := by
    apply dropWhile_eq_self_of_head
    intro c hc
    rw [hD] at hc
    exact dropWhile_head?_not p A.reverse c hc
  rw [step2]

theorem pyStrip_data (s : String) : (pyStrip s).data = stripList s.data := rfl

theorem pyStrip_idem (s : String) : pyStrip (pyStrip s) = pyStrip s := by
  rw [string_eq_iff_data]
  simp only [pyStrip_data]
  exact stripList_idem s.data

theorem pyTake_of_length_le (s : String) (n : Nat) (h : s.data.length ≤ n) :
    pyTake s n = s := by
  rw [string_eq_iff_data]
  show s.data.take n = s.data
  exact List.take_of_length_le h

theorem pyTake_length_le (s : String) (n : Nat) : (pyTake s n).data.length ≤ n := by
  show (s.data.take n).length ≤ n
  simp

theorem pyTake_ne_empty (s : String) (n : Nat) (hs : s ≠ "") (hn : 0 < n) :
    pyTake s n ≠ "" := by
  intro h
  apply hs
  rw [string_eq_iff_data] at h ⊢
  have h2 : s.data.take n = ([] : List Char) := h
  cases hd : s.data with
  | nil => rfl
  | cons a l =>
    rw [hd] at h2
    cases n with
    | zero => omega
    | succ k => simp [List.take] at h2

theorem str_append_ne_empty (s t : String) (h : s ≠ "") : s ++ t ≠ "" := by
  intro he
  apply h
  rw [string_eq_iff_data] at he ⊢
  rw [String.data_append] at he
  exact List.append_eq_nil.mp he |>.1

/-! Helper lemmas: `_normalize_list`. -/

theorem keep_item_strip_ne (x : Val) (h : keep_item x = true) : pyStrip (pyStr x) ≠ "" := by
  intro he
  cases x <;> simp [keep_item, he] at h

theorem normalize_list_length_le (value : Val) (limit : Nat) (default : List String) :
    (normalize_list value limit default).length ≤ limit := by
  cases value with
  | vstr s =>
    show (if pyStrip s = "" then default.take limit else [pyStrip s].take limit).length ≤ limit
    split
    · rw [List.length_take]; omega
    · rw [List.length_take]; omega
  | vlist xs =>
    show ((((xs.filter keep_item).map (fun x => pyStrip (pyStr x))).take limit)).length ≤ limit
    rw [List.length_take]; omega
  | vnull => show (default.take limit).length ≤ limit; rw [List.length_take]; omega
  | vnum n => show (default.take limit).length ≤ limit; rw [List.length_take]; omega
  | vbool b => show (default.take limit).length ≤ limit; rw [List.length_take]; omega
  | vdict fs => show (default.take limit).length ≤ limit; rw [List.length_take]; omega

theorem normalize_list_mem (value : Val) (limit : Nat) (default : List String)
    (hd : ∀ x ∈ default, pyStrip x = x ∧ x ≠ "") :
    ∀ b ∈ normalize_list value limit default, pyStrip b = b ∧ b ≠ "" := by
  intro b hb
  cases value with
  | vlist xs =>
    have hb1 : b ∈ (((xs.filter keep_item).map (fun x => pyStrip (pyStr x))).take limit) := hb
    have hb2 := List.mem_of_mem_take hb1
    obtain ⟨x, hx, rfl⟩ := List.mem_map.mp hb2
    refine ⟨pyStrip_idem (pyStr x), ?_⟩
    exact keep_item_strip_ne x (List.mem_filter.mp hx).2
  | vstr s =>
    have hb1 : b ∈ (if pyStrip s = "" then default.take limit else [pyStrip s].take limit) := hb
    split at hb1
    · exact hd b (List.mem_of_mem_take hb1)
    · have hb2 := List.mem_of_mem_take hb1
      simp at hb2
      subst hb2
      exact ⟨pyStrip_idem s, by assumption⟩
  | vnull => exact hd b (List.mem_of_mem_take (show b ∈ default.take limit from hb))
  | vnum n => exact hd b (List.mem_of_mem_take (show b ∈ default.take limit from hb))
  | vbool b2 => exact hd b (List.mem_of_mem_take (show b ∈ default.take limit from hb))
  | vdict fs => exact hd b (List.mem_of_mem_take (show b ∈ default.take limit from hb))

theorem normalize_list_replay (bl : List String) (limit : Nat) (default : List String)
    (hlen : bl.length ≤ limit) (hb : ∀ b ∈ bl, pyStrip b = b ∧ b ≠ "") :
    normalize_list (.vlist (bl.map Val.vstr)) limit default = bl := by
  show (((bl.map Val.vstr).filter keep_item).map (fun x => pyStrip (pyStr x))).take limit = bl
  have hfilter : (bl.map Val.vstr).filter keep_item = bl.map Val.vstr := by
    rw [List.filter_eq_self]
    intro a ha
    obtain ⟨x, hx, rfl⟩ := List.mem_map.mp ha
    have h1 := (hb x hx).1
    have h2 := (hb x hx).2
    simp [keep_item, pyStr, h1, h2]
  rw [hfilter, List.map_map]
  have hmap : ∀ (l : List String), (∀ b ∈ l, pyStrip b = b) →
      l.map ((fun x => pyStrip (pyStr x)) ∘ Val.vstr) = l := by
    intro l
    induction l with
    | nil => intro _; rfl
    | cons a t ih =>
      intro hl
      simp only [List.map_cons, Function.comp]
      rw [show pyStr (Val.vstr a) = a from rfl, hl a (by simp)]
      rw [ih (fun b hb2 => hl b (by simp [hb2]))]
  rw [hmap bl (fun b hb2 => (hb b hb2).1)]
  exact List.take_of_length_le hlen

/-! Helper definitions and lemmas: the stage-keeping loops. -/

theorem map_stage_from_length (i : Nat) (l : List Val) :
    (map_stage_from i l).length = l.length := by
  induction l generalizing i with
  | nil => rfl
  | cons s rest ih => simp [map_stage_from, ih]

theorem norm_stages_loop_char :
    ∀ (l : List Val) (acc : List CBox), acc.length < 6 →
      norm_stages_loop l acc
        = acc ++ map_stage_from acc.length ((l.filter stage_keeps).take (6 - acc.length)) := by
  intro l
  induction l with
  | nil => intro acc _; simp [norm_stages_loop, map_stage_from]
  | cons s rest ih =>
    intro acc hlt
    by_cases hk : stage_keeps s = true
    · have hfuel : 6 - acc.length = (5 - acc.length) + 1 := by omega
      rw [List.filter_cons_of_pos hk, hfuel, List.take_succ_cons]
      simp only [map_stage_from]
      by_cases h6 : 6 ≤ acc.length + 1
      · have h5 : 5 - acc.length = 0 := by omega
        rw [h5]
        simp only [List.take_zero, map_stage_from]
        show norm_stages_loop (s :: rest) acc = acc ++ [norm_stage acc.length s]
        simp only [norm_stages_loop, hk, if_true]
        rw [if_pos (by simp only [List.length_append, List.length_singleton]; omega)]
      · show norm_stages_loop (s :: rest) acc
          = acc ++ (norm_stage acc.length s
              :: map_stage_from (acc.length + 1) ((rest.filter stage_keeps).take (5 - acc.length)))
        simp only [norm_stages_loop, hk, if_true]
        rw [if_neg (by simp only [List.length_append, List.length_singleton]; omega)]
        rw [ih (acc ++ [norm_stage acc.length s]) (by simp only [List.length_append, List.length_singleton]; omega)]
        simp only [List.length_append, List.length_singleton]
        have h7 : 6 - (acc.length + 1) = 5 - acc.length := by omega
        rw [h7, List.append_assoc, List.singleton_append]
    · have hk2 : stage_keeps s = false := by
        cases h : stage_keeps s
        · rfl
        · exact absurd h hk
      rw [List.filter_cons_of_neg (by rw [hk2]; simp)]
      show norm_stages_loop (s :: rest) acc
        = acc ++ map_stage_from acc.length ((rest.filter stage_keeps).take (6 - acc.length))
      simp only [norm_stages_loop, hk2, if_false, Bool.false_eq_true]
      exact ih acc hlt

theorem map_wp_from_length (i : Nat) (l : List Val) :
    (map_wp_from i l).length = l.length := by
  induction l generalizing i with
  | nil => rfl
  | cons s rest ih => simp [map_wp_from, ih]

theorem norm_wps_loop_char :
    ∀ (l : List Val) (acc : List CBox), acc.length < 3 →
      norm_wps_loop l acc
        = acc ++ map_wp_from acc.length ((l.filter wp_keeps).take (3 - acc.length)) := by
  intro l
  induction l with
  | nil => intro acc _; simp [norm_wps_loop, map_wp_from]
  | cons s rest ih =>
    intro acc hlt
    by_cases hk : wp_keeps s = true
    · have hfuel : 3 - acc.length = (2 - acc.length) + 1 := by omega
      rw [List.filter_cons_of_pos hk, hfuel, List.take_succ_cons]
      simp only [map_wp_from]
      by_cases h3 : 3 ≤ acc.length + 1
      · have h2 : 2 - acc.length = 0 := by omega
        rw [h2]
        simp only [List.take_zero, map_wp_from]
        show norm_wps_loop (s :: rest) acc = acc ++ [norm_wp acc.length s]
        simp only [norm_wps_loop, hk, if_true]
        rw [if_pos (by simp only [List.length_append, List.length_singleton]; omega)]
      · show norm_wps_loop (s :: rest) acc
          = acc ++ (norm_wp acc.length s
              :: map_wp_from (acc.length + 1) ((rest.filter wp_keeps).take (2 - acc.length)))
        simp only [norm_wps_loop, hk, if_true]
        rw [if_neg (by simp only [List.length_append, List.length_singleton]; omega)]
        rw [ih (acc ++ [norm_wp acc.length s]) (by simp only [List.length_append, List.length_singleton]; omega)]
        simp only [List.length_append, List.length_singleton]
        have h7 : 3 - (acc.length + 1) = 2 - acc.length := by omega
        rw [h7, List.append_assoc, List.singleton_append]
    · have hk2 : wp_keeps s = false := by
        cases h : wp_keeps s
        · rfl
        · exact absurd h hk
      rw [List.filter_cons_of_neg (by rw [hk2]; simp)]
      show norm_wps_loop (s :: rest) acc
        = acc ++ map_wp_from acc.length ((rest.filter wp_keeps).take (3 - acc.length))
      simp only [norm_wps_loop, hk2, if_false, Bool.false_eq_true]
      exact ih acc hlt

theorem wp_pad_list_cons (k : Nat) (h : k < 3) :
    wp_pad_list k = wp_default (k + 1) :: wp_pad_list (k + 1) := by
  unfold wp_pad_list
  have h1 : 3 - k = (3 - (k + 1)) + 1 := by omega
  rw [h1, List.range_succ_eq_map, List.map_cons, List.map_map]
  congr 1
  apply List.map_congr_left
  intro j _
  simp only [Function.comp]
  congr 1
  omega

theorem wp_pad_list_ge (k : Nat) (h : 3 ≤ k) : wp_pad_list k = [] := by
  unfold wp_pad_list
  have h1 : 3 - k = 0 := by omega
  rw [h1]
  rfl

theorem pad_wps_go_char :
    ∀ (fuel : Nat) (l : List CBox), 3 - l.length ≤ fuel →
      pad_wps_go fuel l = l ++ wp_pad_list l.length := by
  intro fuel
  induction fuel with
  | zero =>
    intro l h
    rw [pad_wps_go, wp_pad_list_ge l.length (by omega)]
    simp
  | succ f ih =>
    intro l h
    rw [pad_wps_go]
    by_cases hl : l.length < 3
    · rw [if_pos hl, ih (l ++ [wp_default (l.length + 1)]) (by simp; omega)]
      rw [wp_pad_list_cons l.length hl]
      simp
    · rw [if_neg hl, wp_pad_list_ge l.length (by omega)]
      simp

theorem pad_wps_char (l : List CBox) : pad_wps l = l ++ wp_pad_list l.length :=
  pad_wps_go_char 3 l (by omega)

theorem mem_map_stage_from {b : CBox} :
    ∀ (i : Nat) (l : List Val), b ∈ map_stage_from i l → ∃ j s, s ∈ l ∧ b = norm_stage j s := by
  intro i l
  induction l generalizing i with
  | nil => intro h; simp [map_stage_from] at h
  | cons s rest ih =>
    intro h
    rw [map_stage_from] at h
    rcases List.mem_cons.mp h with h1 | h2
    · exact ⟨i, s, by simp, h1⟩
    · obtain ⟨j, s2, hs2, hb⟩ := ih (i + 1) h2
      exact ⟨j, s2, by simp [hs2], hb⟩

theorem mem_map_wp_from {b : CBox} :
    ∀ (i : Nat) (l : List Val), b ∈ map_wp_from i l → ∃ j s, s ∈ l ∧ b = norm_wp j s := by
  intro i l
  induction l generalizing i with
  | nil => intro h; simp [map_wp_from] at h
  | cons s rest ih =>
    intro h
    rw [map_wp_from] at h
    rcases List.mem_cons.mp h with h1 | h2
    · exact ⟨i, s, by simp, h1⟩
    · obtain ⟨j, s2, hs2, hb⟩ := ih (i + 1) h2
      exact ⟨j, s2, by simp [hs2], hb⟩

/-! Helper invariants of normalized boxes. -/

theorem norm_stage_inv (i : Nat) (s : Val) (hk : stage_keeps s = true) :
    stage_inv (norm_stage i s) := by
  cases s with
  | vdict fs =>
    refine ⟨?_, ?_, ?_, ?_, ?_⟩
    · show pyTake (if stage_title_of fs = "" then "阶段 " ++ toString (i + 1) else stage_title_of fs) 32 ≠ ""
      apply pyTake_ne_empty _ _ ?_ (by omega)
      split
      · exact str_append_ne_empty _ _ (by decide)
      · assumption
    · show (pyTake (if stage_title_of fs = "" then "阶段 " ++ toString (i + 1) else stage_title_of fs) 32).data.length ≤ 32
      exact pyTake_length_le _ _
    · show (if stage_bullets_of fs = [] then default_stage_bullets else stage_bullets_of fs) ≠ []
      split
      · simp [default_stage_bullets]
      · assumption
    · show (if stage_bullets_of fs = [] then default_stage_bullets else stage_bullets_of fs).length ≤ 4
      split
      · decide
      · exact normalize_list_length_le _ _ _
    · show ∀ x ∈ (if stage_bullets_of fs = [] then default_stage_bullets else stage_bullets_of fs), pyStrip x = x ∧ x ≠ ""
      split
      · decide
      · exact normalize_list_mem _ _ _ (by simp)
  | vnull => simp [stage_keeps] at hk
  | vstr s2 => simp [stage_keeps] at hk
  | vnum n => simp [stage_keeps] at hk
  | vbool b2 => simp [stage_keeps] at hk
  | vlist xs => simp [stage_keeps] at hk

theorem norm_wp_inv (i : Nat) (s : Val) (hk : wp_keeps s = true) :
    wp_inv (norm_wp i s) := by
  cases s with
  | vdict fs =>
    refine ⟨?_, ?_, ?_, ?_, ?_⟩
    · show pyTake (if wp_title_of fs = "" then "WP" ++ toString (i + 1) else wp_title_of fs) 28 ≠ ""
      apply pyTake_ne_empty _ _ ?_ (by omega)
      split
      · exact str_append_ne_empty _ _ (by decide)
      · assumption
    · show (pyTake (if wp_title_of fs = "" then "WP" ++ toString (i + 1) else wp_title_of fs) 28).data.length ≤ 28
      exact pyTake_length_le _ _
    · show (if wp_bullets_of fs = [] then default_wp_bullets else wp_bullets_of fs) ≠ []
      split
      · simp [default_wp_bullets]
      · assumption
    · show (if wp_bullets_of fs = [] then default_wp_bullets else wp_bullets_of fs).length ≤ 4
      split
      · decide
      · exact normalize_list_length_le _ _ _
    · show ∀ x ∈ (if wp_bullets_of fs = [] then default_wp_bullets else wp_bullets_of fs), pyStrip x = x ∧ x ≠ ""
      split
      · decide
      · exact normalize_list_mem _ _ _ (by simp)
  | vnull => simp [wp_keeps] at hk
  | vstr s2 => simp [wp_keeps] at hk
  | vnum n => simp [wp_keeps] at hk
  | vbool b2 => simp [wp_keeps] at hk
  | vlist xs => simp [wp_keeps] at hk

theorem wp_default_inv (idx : Nat) (h1 : 1 ≤ idx) (h3 : idx ≤ 3) :
    wp_inv (wp_default idx) := by
  have hc : idx = 1 ∨ idx = 2 ∨ idx = 3 := by omega
  rcases hc with h | h | h <;> subst h <;> decide

theorem norm_box_inv (spec : PyDict) (key : String) (dt : String) (db : List String)
    (hdt : dt ≠ "") (hdb : ∀ x ∈ db, pyStrip x = x ∧ x ≠ "") :
    (norm_box spec key dt db).title ≠ ""
      ∧ (norm_box spec key dt db).title.data.length ≤ 28
      ∧ (norm_box spec key dt db).bullets.length ≤ 4
      ∧ ∀ x ∈ (norm_box spec key dt db).bullets, pyStrip x = x ∧ x ≠ "" := by
  unfold norm_box
  refine ⟨?_, pyTake_length_le _ _, normalize_list_length_le _ _ _, normalize_list_mem _ _ _ hdb⟩
  apply pyTake_ne_empty _ _ ?_ (by omega)
  split
  · exact hdt
  · assumption

/-! Helper lemmas at the level of whole normalized specs. -/

theorem norm_stages_loop_nil (l : List Val) :
    norm_stages_loop l [] = map_stage_from 0 ((l.filter stage_keeps).take 6) := by
  rw [norm_stages_loop_char l [] (by simp)]
  simp

theorem norm_stages_loop_nil_len (l : List Val) :
    (norm_stages_loop l []).length = min 6 (l.filter stage_keeps).length := by
  rw [norm_stages_loop_nil, map_stage_from_length, List.length_take]

theorem tr_stages_eq (spec : PyDict) (t : String) :
    (normalize_technical_route_spec spec t).stages
      = (if (norm_stages_loop (raw_stage_list spec) []).length < 3
          then default_stage_skeleton
          else norm_stages_loop (raw_stage_list spec) []) := rfl

theorem tr_stages_len (spec : PyDict) (t : String) :
    3 ≤ (normalize_technical_route_spec spec t).stages.length
      ∧ (normalize_technical_route_spec spec t).stages.length ≤ 6 := by
  rw [tr_stages_eq]
  split
  · decide
  · have h := norm_stages_loop_nil_len (raw_stage_list spec)
    constructor
    · omega
    · omega

theorem tr_stages_inv (spec : PyDict) (t : String) :
    ∀ b ∈ (normalize_technical_route_spec spec t).stages, stage_inv b := by
  intro b hb
  rw [tr_stages_eq] at hb
  split at hb
  · have hall : ∀ x ∈ default_stage_skeleton, stage_inv x := by decide
    exact hall b hb
  · rw [norm_stages_loop_nil] at hb
    obtain ⟨j, s, hs, rfl⟩ := mem_map_stage_from 0 _ hb
    exact norm_stage_inv j s (List.mem_filter.mp (List.mem_of_mem_take hs)).2

theorem norm_wps_loop_nil (l : List Val) :
    norm_wps_loop l [] = map_wp_from 0 ((l.filter wp_keeps).take 3) := by
  rw [norm_wps_loop_char l [] (by simp)]
  simp

theorem norm_wps_loop_nil_len (l : List Val) :
    (norm_wps_loop l []).length = min 3 (l.filter wp_keeps).length := by
  rw [norm_wps_loop_nil, map_wp_from_length, List.length_take]

theorem wp_pad_list_length (k : Nat) : (wp_pad_list k).length = 3 - k := by
  simp [wp_pad_list]

theorem rf_wps_eq (spec : PyDict) (t : String) :
    (normalize_research_framework_spec spec t).work_packages
      = pad_wps (norm_wps_loop (raw_wp_list spec) []) := rfl

theorem rf_wps_len (spec : PyDict) (t : String) :
    (normalize_research_framework_spec spec t).work_packages.length = 3 := by
  rw [rf_wps_eq, pad_wps_char]
  rw [List.length_append, wp_pad_list_length, norm_wps_loop_nil_len]
  have h2 := norm_wps_loop_nil_len (raw_wp_list spec)
  omega

theorem rf_wps_inv (spec : PyDict) (t : String) :
    ∀ b ∈ (normalize_research_framework_spec spec t).work_packages, wp_inv b := by
  intro b hb
  rw [rf_wps_eq, pad_wps_char] at hb
  rcases List.mem_append.mp hb with h1 | h2
  · rw [norm_wps_loop_nil] at h1
    obtain ⟨j, s, hs, rfl⟩ := mem_map_wp_from 0 _ h1
    exact norm_wp_inv j s (List.mem_filter.mp (List.mem_of_mem_take hs)).2
  · unfold wp_pad_list at h2
    obtain ⟨j, hj, rfl⟩ := List.mem_map.mp h2
    have hj2 := List.mem_range.mp hj
    have hlen := norm_wps_loop_nil_len (raw_wp_list spec)
    apply wp_default_inv
    · omega
    · omega

/-! Helper lemmas: re-normalizing an encoded normalized box reproduces it. -/

theorem vstr_truthy (s : String) (h : s ≠ "") : pyTruthy (Val.vstr s) = true := by
  simp [pyTruthy]; exact h

theorem vlist_map_truthy (bl : List String) (h : bl ≠ []) :
    pyTruthy (Val.vlist (bl.map Val.vstr)) = true := by
  simp [pyTruthy]
  exact h

theorem stage_title_replay (b : CBox) (hti : b.title ≠ "") (hts : pyStrip b.title = b.title) :
    stage_title_of [("title", Val.vstr b.title), ("bullets", Val.vlist (b.bullets.map Val.vstr))]
      = b.title := by
  unfold stage_title_of
  have h1 : dict_get [("title", Val.vstr b.title), ("bullets", Val.vlist (b.bullets.map Val.vstr))]
      "title" = Val.vstr b.title := rfl
  rw [h1]
  unfold py_or
  rw [if_pos (vstr_truthy b.title hti)]
  exact hts

theorem stage_bullets_replay (b : CBox) (hbn : b.bullets ≠ []) (hbl : b.bullets.length ≤ 4)
    (hbe : ∀ x ∈ b.bullets, pyStrip x = x ∧ x ≠ "") :
    stage_bullets_of [("title", Val.vstr b.title), ("bullets", Val.vlist (b.bullets.map Val.vstr))]
      = b.bullets := by
  unfold stage_bullets_of
  have h1 : dict_get [("title", Val.vstr b.title), ("bullets", Val.vlist (b.bullets.map Val.vstr))]
      "bullets" = Val.vlist (b.bullets.map Val.vstr) := rfl
  rw [h1]
  unfold py_or
  rw [if_pos (vlist_map_truthy b.bullets hbn)]
  exact normalize_list_replay b.bullets 4 [] hbl hbe

theorem stage_keeps_replay (b : CBox) (hti : b.title ≠ "") (hts : pyStrip b.title = b.title) :
    stage_keeps (cbox_to_val b) = true := by
  show (decide (stage_title_of [("title", Val.vstr b.title), ("bullets", Val.vlist (b.bullets.map Val.vstr))] ≠ "")
    || decide (stage_bullets_of [("title", Val.vstr b.title), ("bullets", Val.vlist (b.bullets.map Val.vstr))] ≠ [])) = true
  rw [stage_title_replay b hti hts]
  simp [hti]

theorem norm_stage_replay (i : Nat) (b : CBox) (hinv : stage_inv b)
    (hts : pyStrip b.title = b.title) : norm_stage i (cbox_to_val b) = b := by
  obtain ⟨hti, htl, hbn, hbl, hbe⟩ := hinv
  show (⟨pyTake (if stage_title_of [("title", Val.vstr b.title), ("bullets", Val.vlist (b.bullets.map Val.vstr))] = ""
      then "阶段 " ++ toString (i + 1)
      else stage_title_of [("title", Val.vstr b.title), ("bullets", Val.vlist (b.bullets.map Val.vstr))]) 32,
    if stage_bullets_of [("title", Val.vstr b.title), ("bullets", Val.vlist (b.bullets.map Val.vstr))] = []
      then default_stage_bullets
      else stage_bullets_of [("title", Val.vstr b.title), ("bullets", Val.vlist (b.bullets.map Val.vstr))]⟩ : CBox) = b
  rw [stage_title_replay b hti hts, stage_bullets_replay b hbn hbl hbe, if_neg hti, if_neg hbn]
  rw [pyTake_of_length_le _ _ htl]

theorem wp_title_replay (b : CBox) (hti : b.title ≠ "") (hts : pyStrip b.title = b.title) :
    wp_title_of [("title", Val.vstr b.title), ("bullets", Val.vlist (b.bullets.map Val.vstr))]
      = b.title := stage_title_replay b hti hts

theorem wp_bullets_replay (b : CBox) (hbn : b.bullets ≠ []) (hbl : b.bullets.length ≤ 4)
    (hbe : ∀ x ∈ b.bullets, pyStrip x = x ∧ x ≠ "") :
    wp_bullets_of [("title", Val.vstr b.title), ("bullets", Val.vlist (b.bullets.map Val.vstr))]
      = b.bullets := stage_bullets_replay b hbn hbl hbe

theorem wp_keeps_replay (b : CBox) (hti : b.title ≠ "") (hts : pyStrip b.title = b.title) :
    wp_keeps (cbox_to_val b) = true := by
  show (decide (wp_title_of [("title", Val.vstr b.title), ("bullets", Val.vlist (b.bullets.map Val.vstr))] ≠ "")
    || decide (wp_bullets_of [("title", Val.vstr b.title), ("bullets", Val.vlist (b.bullets.map Val.vstr))] ≠ [])) = true
  rw [wp_title_replay b hti hts]
  simp [hti]

theorem norm_wp_replay (i : Nat) (b : CBox) (hinv : wp_inv b)
    (hts : pyStrip b.title = b.title) : norm_wp i (cbox_to_val b) = b := by
  obtain ⟨hti, htl, hbn, hbl, hbe⟩ := hinv
  show (⟨pyTake (if wp_title_of [("title", Val.vstr b.title), ("bullets", Val.vlist (b.bullets.map Val.vstr))] = ""
      then "WP" ++ toString (i + 1)
      else wp_title_of [("title", Val.vstr b.title), ("bullets", Val.vlist (b.bullets.map Val.vstr))]) 28,
    if wp_bullets_of [("title", Val.vstr b.title), ("bullets", Val.vlist (b.bullets.map Val.vstr))] = []
      then default_wp_bullets
      else wp_bullets_of [("title", Val.vstr b.title), ("bullets", Val.vlist (b.bullets.map Val.vstr))]⟩ : CBox) = b
  rw [wp_title_replay b hti hts, wp_bullets_replay b hbn hbl hbe, if_neg hti, if_neg hbn]
  rw [pyTake_of_length_le _ _ htl]

theorem norm_stages_loop_replay :
    ∀ (bs : List CBox) (acc : List CBox), acc.length + bs.length ≤ 6 →
      (∀ b ∈ bs, stage_inv b ∧ pyStrip b.title = b.title) →
      norm_stages_loop (bs.map cbox_to_val) acc = acc ++ bs := by
  intro bs
  induction bs with
  | nil => intro acc _ _; simp [norm_stages_loop]
  | cons b rest ih =>
    intro acc hlen hall
    have hb := hall b (by simp)
    have hkeep := stage_keeps_replay b hb.1.1 hb.2
    simp only [List.map_cons, norm_stages_loop, hkeep, if_true]
    rw [norm_stage_replay acc.length b hb.1 hb.2]
    by_cases h6 : 6 ≤ (acc ++ [b]).length
    · rw [if_pos h6]
      have hrest : rest = [] := by
        cases rest with
        | nil => rfl
        | cons r rs =>
          exfalso
          simp only [List.length_append, List.length_singleton] at h6
          simp only [List.length_cons] at hlen
          omega
      subst hrest
      simp
    · rw [if_neg h6]
      rw [ih (acc ++ [b]) (by simp only [List.length_append, List.length_singleton]; simp only [List.length_cons] at hlen; omega)
        (fun x hx => hall x (by simp [hx]))]
      simp

theorem norm_wps_loop_replay :
    ∀ (bs : List CBox) (acc : List CBox), acc.length + bs.length ≤ 3 →
      (∀ b ∈ bs, wp_inv b ∧ pyStrip b.title = b.title) →
      norm_wps_loop (bs.map cbox_to_val) acc = acc ++ bs := by
  intro bs
  induction bs with
  | nil => intro acc _ _; simp [norm_wps_loop]
  | cons b rest ih =>
    intro acc hlen hall
    have hb := hall b (by simp)
    have hkeep := wp_keeps_replay b hb.1.1 hb.2
    simp only [List.map_cons, norm_wps_loop, hkeep, if_true]
    rw [norm_wp_replay acc.length b hb.1 hb.2]
    by_cases h3 : 3 ≤ (acc ++ [b]).length
    · rw [if_pos h3]
      have hrest : rest = [] := by
        cases rest with
        | nil => rfl
        | cons r rs =>
          exfalso
          simp only [List.length_append, List.length_singleton] at h3
          simp only [List.length_cons] at hlen
          omega
      subst hrest
      simp
    · rw [if_neg h3]
      rw [ih (acc ++ [b]) (by simp only [List.length_append, List.length_singleton]; simp only [List.length_cons] at hlen; omega)
        (fun x hx => hall x (by simp [hx]))]
      simp

theorem tr_renorm (out : TRSpec) (t : String)
    (hlen3 : 3 ≤ out.stages.length) (hlen6 : out.stages.length ≤ 6)
    (hinv : ∀ b ∈ out.stages, stage_inv b)
    (hts : ∀ b ∈ out.stages, pyStrip b.title = b.title) :
    normalize_technical_route_spec (tr_to_val out) t = ⟨t, out.stages⟩ := by
  have hraw : raw_stage_list (tr_to_val out) = out.stages.map cbox_to_val := by
    unfold raw_stage_list
    have h1 : dict_get (tr_to_val out) "stages" = Val.vlist (out.stages.map cbox_to_val) := rfl
    rw [h1]
    unfold py_or
    rw [if_pos (by
      simp [pyTruthy]
      intro he
      rw [he] at hlen3
      simp at hlen3)]
  unfold normalize_technical_route_spec
  rw [hraw, norm_stages_loop_replay out.stages [] (by simpa using hlen6)
    (fun b hb => ⟨hinv b hb, hts b hb⟩)]
  simp only [List.nil_append]
  rw [if_neg (by omega)]

theorem norm_box_replay (spec2 : PyDict) (key : String) (dt : String) (db : List String)
    (b : CBox) (hget : dict_get spec2 key = cbox_to_val b)
    (hti : b.title ≠ "") (htl : b.title.data.length ≤ 28) (hts : pyStrip b.title = b.title)
    (hbn : b.bullets ≠ []) (hbl : b.bullets.length ≤ 4)
    (hbe : ∀ x ∈ b.bullets, pyStrip x = x ∧ x ≠ "") :
    norm_box spec2 key dt db = b := by
  unfold norm_box
  rw [hget]
  have h2 : py_or (cbox_to_val b) (Val.vdict []) = cbox_to_val b := by
    unfold py_or cbox_to_val
    rw [if_pos (by simp [pyTruthy])]
  rw [h2]
  show (⟨pyTake (if pyStrip (pyStr (py_or (dict_get
      [("title", Val.vstr b.title), ("bullets", Val.vlist (b.bullets.map Val.vstr))] "title")
      (Val.vstr dt))) = "" then dt
      else pyStrip (pyStr (py_or (dict_get
      [("title", Val.vstr b.title), ("bullets", Val.vlist (b.bullets.map Val.vstr))] "title")
      (Val.vstr dt)))) 28,
    normalize_list (py_or (dict_get
      [("title", Val.vstr b.title), ("bullets", Val.vlist (b.bullets.map Val.vstr))] "bullets")
      (py_or (dict_get
      [("title", Val.vstr b.title), ("bullets", Val.vlist (b.bullets.map Val.vstr))] "items")
      (dict_get
      [("title", Val.vstr b.title), ("bullets", Val.vlist (b.bullets.map Val.vstr))] "lines")))
      4 db⟩ : CBox) = b
  have h3 : dict_get [("title", Val.vstr b.title), ("bullets", Val.vlist (b.bullets.map Val.vstr))]
      "title" = Val.vstr b.title := rfl
  have h4 : dict_get [("title", Val.vstr b.title), ("bullets", Val.vlist (b.bullets.map Val.vstr))]
      "bullets" = Val.vlist (b.bullets.map Val.vstr) := rfl
  rw [h3, h4]
  have h5 : py_or (Val.vstr b.title) (Val.vstr dt) = Val.vstr b.title := by
    unfold py_or
    rw [if_pos (vstr_truthy b.title hti)]
  have h6 : py_or (Val.vlist (b.bullets.map Val.vstr)) (py_or (dict_get
      [("title", Val.vstr b.title), ("bullets", Val.vlist (b.bullets.map Val.vstr))] "items")
      (dict_get
      [("title", Val.vstr b.title), ("bullets", Val.vlist (b.bullets.map Val.vstr))] "lines"))
      = Val.vlist (b.bullets.map Val.vstr) := by
    unfold py_or
    rw [if_pos (vlist_map_truthy b.bullets hbn)]
  rw [h5, h6]
  show (⟨pyTake (if pyStrip b.title = "" then dt else pyStrip b.title) 28,
    normalize_list (Val.vlist (b.bullets.map Val.vstr)) 4 db⟩ : CBox) = b
  rw [hts, if_neg hti, pyTake_of_length_le _ _ htl,
    normalize_list_replay b.bullets 4 db hbl hbe]

theorem rf_renorm (out : RFSpec) (t : String)
    (hgoal : box_replayable out.goal) (hhyp : box_replayable out.hypotheses)
    (hsup : box_replayable out.support) (hout : box_replayable out.outcomes)
    (hwlen : out.work_packages.length = 3)
    (hw : ∀ b ∈ out.work_packages, wp_inv b ∧ pyStrip b.title = b.title) :
    normalize_research_framework_spec (rf_to_val out) t
      = ⟨t, out.goal, out.hypotheses, out.support, out.work_packages, out.outcomes⟩ := by
  have hraw : raw_wp_list (rf_to_val out) = out.work_packages.map cbox_to_val := by
    unfold raw_wp_list
    have h1 : dict_get (rf_to_val out) "work_packages"
        = Val.vlist (out.work_packages.map cbox_to_val) := rfl
    rw [h1]
    unfold py_or
    rw [if_pos (by
      simp [pyTruthy]
      intro he
      rw [he] at hwlen
      simp at hwlen)]
  unfold normalize_research_framework_spec
  rw [hraw, norm_wps_loop_replay out.work_packages [] (by simp [hwlen]) hw]
  simp only [List.nil_append]
  rw [pad_wps_char, hwlen, wp_pad_list_ge 3 (by omega), List.append_nil]
  obtain ⟨hg1, hg2, hg3, hg4, hg5, hg6⟩ := hgoal
  obtain ⟨hh1, hh2, hh3, hh4, hh5, hh6⟩ := hhyp
  obtain ⟨hs1, hs2, hs3, hs4, hs5, hs6⟩ := hsup
  obtain ⟨ho1, ho2, ho3, ho4, ho5, ho6⟩ := hout
  rw [norm_box_replay (rf_to_val out) "goal" "研究目标"
      ["凝练核心目标", "明确创新点", "量化考核指标"] out.goal rfl hg1 hg2 hg3 hg4 hg5 hg6,
    norm_box_replay (rf_to_val out) "hypotheses" "科学问题/假设"
      ["提出关键科学问题", "给出可检验假设", "定义验证路径"] out.hypotheses rfl hh1 hh2 hh3 hh4 hh5 hh6,
    norm_box_replay (rf_to_val out) "support" "支撑条件"
      ["研究基础与团队", "数据/平台/设备", "合作与资源保障"] out.support rfl hs1 hs2 hs3 hs4 hs5 hs6,
    norm_box_replay (rf_to_val out) "outcomes" "预期成果"
      ["论文/专利/标准", "原型/系统/平台", "数据集/开源工具"] out.outcomes rfl ho1 ho2 ho3 ho4 ho5 ho6]

/-! Helper lemmas: the source wrap loop coincides with the spec's greedy
reference loop (they differ only in where the first-character case is
handled, which yields the same states). -/

theorem wrap_loop_eq_greedy (m : String → Nat) (mw : Nat) :
    ∀ (l : List Char) (lines : List String) (current : String),
      wrap_loop m mw l lines current = greedy_spec_loop m mw l lines current := by
  intro l
  induction l with
  | nil => intro lines current; rfl
  | cons ch rest ih =>
    intro lines current
    by_cases hnl : ch = '\n'
    · simp only [wrap_loop, greedy_spec_loop, if_pos hnl]
      exact ih _ _
    · by_cases hcur : current = ""
      · subst hcur
        have hpush : ("" : String).push ch = String.singleton ch := rfl
        simp only [wrap_loop, greedy_spec_loop, if_neg hnl, hpush, eq_self_iff_true,
          if_true, ite_true, ite_self]
        exact ih _ _
      · simp only [wrap_loop, greedy_spec_loop, if_neg hnl, if_neg hcur]
        split
        · exact ih _ _
        · exact ih _ _

theorem wrap_text_eq_greedy_strip (m : String → Nat) (t : String) (mw : Nat) :
    wrap_text m t mw = wrap_greedy_spec m (pyStrip t) mw := by
  show (if pyStrip t = "" then [] else wrap_loop m mw (pyStrip t).data [] "")
    = wrap_greedy_spec m (pyStrip t) mw
  unfold wrap_greedy_spec
  rw [pyStrip_idem]
  split
  · rfl
  · exact wrap_loop_eq_greedy m mw (pyStrip t).data [] ""

/-! Helper lemmas: layout geometry. -/

theorem adjacent_pairs_length : ∀ (l : List LayoutBox), (adjacent_pairs l).length = l.length - 1 := by
  intro l
  induction l with
  | nil => rfl
  | cons a rest ih =>
    cases rest with
    | nil => rfl
    | cons b rs =>
      show ((a, b) :: adjacent_pairs (b :: rs)).length = (a :: b :: rs).length - 1
      rw [List.length_cons, ih]
      simp

theorem tech_stage_layout_aux_length (m : String → Nat) :
    ∀ (l : List CBox) (i y : Nat), (tech_stage_layout_aux m l i y).length = l.length := by
  intro l
  induction l with
  | nil => intro i y; rfl
  | cons st rest ih => intro i y; simp [tech_stage_layout_aux, ih]

theorem tech_connectors_count (m : String → Nat) (stages : List CBox) :
    (tech_connectors (tech_stage_layout m stages)).length = stages.length - 1 := by
  unfold tech_connectors tech_stage_layout
  rw [adjacent_pairs_length, tech_stage_layout_aux_length]

theorem pairs_flatten_length (hb sb : LayoutBox) :
    ∀ ws : List LayoutBox,
      ((ws.map (fun w => [(hb, w), (sb, w)])).flatten).length = 2 * ws.length := by
  intro ws
  induction ws with
  | nil => rfl
  | cons w rest ih =>
    simp only [List.map_cons, List.flatten_cons, List.length_append, List.length_cons, ih,
      List.length_nil, List.length_cons]
    omega

theorem rf_connectors_length (L : RFLayoutData) :
    (rf_connectors L).length = 2 + 3 * L.wp_boxes.length := by
  unfold rf_connectors
  rw [List.length_append, List.length_append, pairs_flatten_length, List.length_map]
  simp
  omega

theorem rf_layout_wp_boxes_length (m : String → Nat) (s : RFSpec) (a b c : CBox)
    (hw : s.work_packages = [a, b, c]) : (rf_layout m s).wp_boxes.length = 3 := by
  simp [rf_layout, hw]

theorem rf_layout_wp_heights (m : String → Nat) (s : RFSpec) (a b c : CBox)
    (hw : s.work_packages = [a, b, c]) :
    (rf_layout m s).wp_boxes.map (fun bx => bx.h)
      = List.replicate 3 (max (max (box_height_lines m a 457).1 (box_height_lines m b 457).1)
          (box_height_lines m c 457).1) := by
  simp [rf_layout, hw, show List.range 3 = [0, 1, 2] from rfl]

/-! The claims. -/

/-- C1: the Sequential-Flow normalizer always yields between 3 and 6 stages
inclusive; if fewer than 3 qualifying stages (dict entries with a
non-trivial title or bullets) exist, the whole stage list becomes the fixed
3-stage default skeleton; otherwise the first at-most-6 qualifying stages
are kept in order, each normalized at its kept position. -/
theorem c1_sequential_stage_normalization (spec : PyDict) (t : String) :
    (3 ≤ (normalize_technical_route_spec spec t).stages.length
      ∧ (normalize_technical_route_spec spec t).stages.length ≤ 6)
    ∧ (((raw_stage_list spec).filter stage_keeps).length < 3 →
        (normalize_technical_route_spec spec t).stages = default_stage_skeleton)
    ∧ (3 ≤ ((raw_stage_list spec).filter stage_keeps).length →
        (normalize_technical_route_spec spec t).stages
          = map_stage_from 0 (((raw_stage_list spec).filter stage_keeps).take 6)) := by
  refine ⟨tr_stages_len spec t, ?_, ?_⟩
  · intro h
    rw [tr_stages_eq, if_pos]
    rw [norm_stages_loop_nil_len]
    omega
  · intro h
    rw [tr_stages_eq, if_neg, norm_stages_loop_nil]
    rw [norm_stages_loop_nil_len]
    omega

/-- C1 witness: the empty raw spec has no qualifying stages, so the default
skeleton is installed and the stage count is 3. -/
theorem c1_sequential_stage_normalization_witness :
    ((raw_stage_list []).filter stage_keeps).length < 3
      ∧ (normalize_technical_route_spec [] "Roadmap").stages = default_stage_skeleton
      ∧ 3 ≤ (normalize_technical_route_spec [] "Roadmap").stages.length := by
  have h := c1_sequential_stage_normalization [] "Roadmap"
  exact ⟨by decide, h.2.1 (by decide), h.1.1⟩

/-- C2: the Hierarchical-Framework normalizer always yields exactly 3 work
packages: the first 3 qualifying raw entries, in order, followed by the
`WP(n)` default padding boxes. -/
theorem c2_work_package_normalization (spec : PyDict) (t : String) :
    (normalize_research_framework_spec spec t).work_packages.length = 3
    ∧ (normalize_research_framework_spec spec t).work_packages
        = map_wp_from 0 (((raw_wp_list spec).filter wp_keeps).take 3)
          ++ wp_pad_list (((raw_wp_list spec).filter wp_keeps).take 3).length := by
  refine ⟨rf_wps_len spec t, ?_⟩
  rw [rf_wps_eq, pad_wps_char, norm_wps_loop_nil, map_wp_from_length]

/-- C3 counterexample: normalization is not idempotent.  A goal box whose
raw bullets list filters to empty (here a single whitespace-only bullet)
normalizes to an empty bullets list, but re-normalizing the output replaces
that empty list with the default goal bullets, so the second pass differs
from the first. -/
theorem c3_idempotence_counterexample :
    normalize_research_framework_spec
        (rf_to_val (normalize_research_framework_spec
          [("goal", Val.vdict [("bullets", Val.vlist [Val.vstr ""])])] "T")) "T"
      ≠ normalize_research_framework_spec
          [("goal", Val.vdict [("bullets", Val.vlist [Val.vstr ""])])] "T" := by
  decide

/-- C3 amended: normalization is idempotent provided the first pass's output
contains no box title that whitespace-stripping would alter (title
truncation at a space can create one) and, for the hierarchical archetype,
none of the four singleton boxes normalized to an empty bullets list. -/
theorem c3_idempotence_amended :
    (∀ (x : PyDict) (t : String),
      (∀ b ∈ (normalize_technical_route_spec x t).stages, pyStrip b.title = b.title) →
      normalize_technical_route_spec (tr_to_val (normalize_technical_route_spec x t)) t
        = normalize_technical_route_spec x t)
    ∧ (∀ (x : PyDict) (t : String),
      pyStrip (normalize_research_framework_spec x t).goal.title
          = (normalize_research_framework_spec x t).goal.title →
      pyStrip (normalize_research_framework_spec x t).hypotheses.title
          = (normalize_research_framework_spec x t).hypotheses.title →
      pyStrip (normalize_research_framework_spec x t).support.title
          = (normalize_research_framework_spec x t).support.title →
      pyStrip (normalize_research_framework_spec x t).outcomes.title
          = (normalize_research_framework_spec x t).outcomes.title →
      (∀ b ∈ (normalize_research_framework_spec x t).work_packages,
          pyStrip b.title = b.title) →
      (normalize_research_framework_spec x t).goal.bullets ≠ [] →
      (normalize_research_framework_spec x t).hypotheses.bullets ≠ [] →
      (normalize_research_framework_spec x t).support.bullets ≠ [] →
      (normalize_research_framework_spec x t).outcomes.bullets ≠ [] →
      normalize_research_framework_spec (rf_to_val (normalize_research_framework_spec x t)) t
        = normalize_research_framework_spec x t) := by
  constructor
  · intro x t hts
    have hlen := tr_stages_len x t
    exact tr_renorm (normalize_technical_route_spec x t) t hlen.1 hlen.2
      (tr_stages_inv x t) hts
  · intro x t hg hh hs ho hw hgb hhb hsb hob
    have hgoal := norm_box_inv x "goal" "研究目标"
      ["凝练核心目标", "明确创新点", "量化考核指标"] (by decide) (by decide)
    have hhyp := norm_box_inv x "hypotheses" "科学问题/假设"
      ["提出关键科学问题", "给出可检验假设", "定义验证路径"] (by decide) (by decide)
    have hsup := norm_box_inv x "support" "支撑条件"
      ["研究基础与团队", "数据/平台/设备", "合作与资源保障"] (by decide) (by decide)
    have hout := norm_box_inv x "outcomes" "预期成果"
      ["论文/专利/标准", "原型/系统/平台", "数据集/开源工具"] (by decide) (by decide)
    exact rf_renorm (normalize_research_framework_spec x t) t
      ⟨hgoal.1, hgoal.2.1, hg, hgb, hgoal.2.2.1, hgoal.2.2.2⟩
      ⟨hhyp.1, hhyp.2.1, hh, hhb, hhyp.2.2.1, hhyp.2.2.2⟩
      ⟨hsup.1, hsup.2.1, hs, hsb, hsup.2.2.1, hsup.2.2.2⟩
      ⟨hout.1, hout.2.1, ho, hob, hout.2.2.1, hout.2.2.2⟩
      (rf_wps_len x t)
      (fun b hb => ⟨rf_wps_inv x t b hb, hw b hb⟩)

/-- C3 amended witness: at the empty raw dict both normalized outputs
satisfy the amended side conditions and re-normalization reproduces them. -/
theorem c3_idempotence_amended_witness :
    (∀ b ∈ (normalize_technical_route_spec [] "T").stages, pyStrip b.title = b.title)
      ∧ (normalize_research_framework_spec [] "T").goal.bullets ≠ []
      ∧ normalize_technical_route_spec (tr_to_val (normalize_technical_route_spec [] "T")) "T"
          = normalize_technical_route_spec [] "T"
      ∧ normalize_research_framework_spec
            (rf_to_val (normalize_research_framework_spec [] "T")) "T"
          = normalize_research_framework_spec [] "T" := by
  refine ⟨by decide, by decide, ?_, ?_⟩
  · exact c3_idempotence_amended.1 [] "T" (by decide)
  · exact c3_idempotence_amended.2 [] "T" (by decide) (by decide) (by decide) (by decide)
      (by decide) (by decide) (by decide) (by decide) (by decide)

/-- C4: for every normalized spec handed to the renderers, the
Hierarchical-Framework layout draws exactly 11 connectors and the
Sequential-Flow layout draws exactly `stage count − 1` connectors, for any
text measure. -/
theorem c4_connector_counts (m : String → Nat) (spec : PyDict) (t : String) :
    (tech_connectors (tech_stage_layout m (normalize_technical_route_spec spec t).stages)).length
        = (normalize_technical_route_spec spec t).stages.length - 1
    ∧ (rf_connectors (rf_layout m (normalize_research_framework_spec spec t))).length = 11 := by
  refine ⟨tech_connectors_count m _, ?_⟩
  obtain ⟨a, b, c, hw⟩ := List.length_eq_three.mp (rf_wps_len spec t)
  rw [rf_connectors_length, rf_layout_wp_boxes_length m _ a b c hw]

/-- C5: in the Hierarchical-Framework layout the hypotheses and support
boxes both receive the maximum of their two independently computed heights,
and all 3 work-package boxes receive the maximum of their three
independently computed heights, so each row has uniform height. -/
theorem c5_row_max_height (m : String → Nat) (x : PyDict) (t : String) :
    (rf_layout m (normalize_research_framework_spec x t)).hyp_box.h
        = max (box_height_lines m (normalize_research_framework_spec x t).hypotheses 699).1
            (box_height_lines m (normalize_research_framework_spec x t).support 699).1
    ∧ (rf_layout m (normalize_research_framework_spec x t)).sup_box.h
        = max (box_height_lines m (normalize_research_framework_spec x t).hypotheses 699).1
            (box_height_lines m (normalize_research_framework_spec x t).support 699).1
    ∧ (rf_layout m (normalize_research_framework_spec x t)).wp_boxes.map (fun bx => bx.h)
        = List.replicate 3 (max (max
            (box_height_lines m ((normalize_research_framework_spec x t).work_packages.getD 0
              (wp_default 1)) 457).1
            (box_height_lines m ((normalize_research_framework_spec x t).work_packages.getD 1
              (wp_default 2)) 457).1)
            (box_height_lines m ((normalize_research_framework_spec x t).work_packages.getD 2
              (wp_default 3)) 457).1) := by
  refine ⟨rfl, rfl, ?_⟩
  obtain ⟨a, b, c, hw⟩ := List.length_eq_three.mp (rf_wps_len x t)
  rw [rf_layout_wp_heights m _ a b c hw, hw]
  rfl

/-- C6 counterexample: the wrapper is not the greedy reference on the raw
text, because the source strips the input first; on `" a"` (leading space)
the wrapper yields `["a"]` while the spec's greedy reference yields
`[" a"]`. -/
theorem c6_wrapper_greedy_counterexample :
    wrap_text char_count_measure " a" 100 = ["a"]
      ∧ wrap_greedy_spec char_count_measure " a" 100 = [" a"]
      ∧ wrap_text char_count_measure " a" 100
          ≠ wrap_greedy_spec char_count_measure " a" 100 := by
  refine ⟨by decide, by decide, by decide⟩

/-- C6 amended: for every measure, text and width budget, the source
wrapper equals the spec's greedy reference applied to the
whitespace-stripped text (and so empty or whitespace-only input yields an
empty line list in both). -/
theorem c6_wrapper_greedy_amended (m : String → Nat) (t : String) (mw : Nat) :
    wrap_text m t mw = wrap_greedy_spec m (pyStrip t) mw :=
  wrap_text_eq_greedy_strip m t mw

/-- C7 counterexample: the continuation prefix is two space characters
(`len("• ")`), not spaces of the marker's rendered width: under a measure
giving the bullet glyph advance 10 and every other glyph 5, the marker
measures 15 while no run of spaces measures 15. -/
theorem c7_hanging_indent_counterexample :
    wrap_bullet bullet_weight_measure "ab" 20 = ["• a", "  b"]
      ∧ bullet_weight_measure "" ≠ bullet_weight_measure "• "
      ∧ bullet_weight_measure " " ≠ bullet_weight_measure "• "
      ∧ bullet_weight_measure "  " ≠ bullet_weight_measure "• " := by
  refine ⟨by decide, by decide, by decide, by decide⟩

/-- C7 amended: whenever the inner wrap of the stripped text is non-empty,
the bullet wrapper prefixes its first line with the marker `"• "` and every
continuation line with a run of spaces whose character count equals the
marker's character count (two spaces). -/
theorem c7_hanging_indent_amended (m : String → Nat) (t : String) (mw : Nat)
    (w : String) (ws : List String)
    (hw : wrap_text m (pyStrip t) (max 1 (mw - m "• ")) = w :: ws) :
    wrap_bullet m t mw = ("• " ++ w) :: ws.map (fun ln => "  " ++ ln) := by
  have hne : pyStrip t ≠ "" := by
    intro he
    rw [he] at hw
    have hnil : wrap_text m "" (max 1 (mw - m "• ")) = [] := rfl
    rw [hnil] at hw
    exact List.noConfusion hw
  show (if pyStrip t = "" then []
    else
      match wrap_text m (pyStrip t) (max 1 (mw - m "• ")) with
      | [] => []
      | w2 :: ws2 => ("• " ++ w2)
          :: ws2.map (fun ln => String.mk (List.replicate "• ".length ' ') ++ ln))
    = ("• " ++ w) :: ws.map (fun ln => "  " ++ ln)
  rw [if_neg hne, hw]
  rfl

/-- C7 amended witness: a two-line bullet wrap at measure
`bullet_weight_measure`, text `"ab"`, budget 20. -/
theorem c7_hanging_indent_amended_witness :
    wrap_text bullet_weight_measure (pyStrip "ab")
        (max 1 (20 - bullet_weight_measure "• ")) = "a" :: ["b"]
      ∧ wrap_bullet bullet_weight_measure "ab" 20 = ["• a", "  b"] := by
  refine ⟨by decide, ?_⟩
  have h := c7_hanging_indent_amended bullet_weight_measure "ab" 20 "a" ["b"] (by decide)
  rw [h]
  decide

/-- C8: both normalizers are total on the dict domain of the dispatcher's
`raw_spec` argument (they are Lean functions, so no exception can occur)
and always produce a renderable spec: bounded stage count (3..6) with
well-formed stages, exactly 3 well-formed work packages and four
well-formed singleton boxes. -/
theorem c8_normalization_never_fails (spec : PyDict) (t : String) :
    renderable_tr (normalize_technical_route_spec spec t)
      ∧ renderable_rf (normalize_research_framework_spec spec t) := by
  refine ⟨⟨(tr_stages_len spec t).1, (tr_stages_len spec t).2, tr_stages_inv spec t⟩, ?_⟩
  refine ⟨?_, ?_, ?_, ?_, rf_wps_len spec t, rf_wps_inv spec t⟩
  · exact norm_box_inv spec "goal" "研究目标"
      ["凝练核心目标", "明确创新点", "量化考核指标"] (by decide) (by decide)
  · exact norm_box_inv spec "hypotheses" "科学问题/假设"
      ["提出关键科学问题", "给出可检验假设", "定义验证路径"] (by decide) (by decide)
  · exact norm_box_inv spec "support" "支撑条件"
      ["研究基础与团队", "数据/平台/设备", "合作与资源保障"] (by decide) (by decide)
  · exact norm_box_inv spec "outcomes" "预期成果"
      ["论文/专利/标准", "原型/系统/平台", "数据集/开源工具"] (by decide) (by decide)

/-- C9 counterexample: a diagram type that is not literally one of the two
archetype names can still be accepted, because the dispatcher strips
whitespace first: `" technical_route "` dispatches successfully instead of
raising. -/
theorem c9_dispatcher_counterexample :
    " technical_route " ≠ "technical_route"
      ∧ " technical_route " ≠ "research_framework"
      ∧ is_error (render_infographic_png_svg char_count_measure
          " technical_route " [] "T") = false := by
  refine ⟨by decide, by decide, by decide⟩

/-- C9 amended: for every diagram-type string that does not
whitespace-strip to one of the two supported archetype names, the
dispatcher returns the invalid-argument error and produces no output (the
error carries neither spec, layout, nor connectors). -/
theorem c9_dispatcher_amended (m : String → Nat) (dt : String) (raw : PyDict) (t : String)
    (h1 : pyStrip dt ≠ "technical_route") (h2 : pyStrip dt ≠ "research_framework") :
    render_infographic_png_svg m dt raw t
      = .error ("Unsupported diagram_type: " ++ dt) := by
  show (if pyStrip dt = "technical_route" then _
    else if pyStrip dt = "research_framework" then _
    else Except.error ("Unsupported diagram_type: " ++ dt))
    = Except.error ("Unsupported diagram_type: " ++ dt)
  rw [if_neg h1, if_neg h2]

/-- C9 amended witness: the unsupported type `"unknown_type"` is rejected
with the invalid-argument error. -/
theorem c9_dispatcher_amended_witness :
    pyStrip "unknown_type" ≠ "technical_route"
      ∧ pyStrip "unknown_type" ≠ "research_framework"
      ∧ render_infographic_png_svg char_count_measure "unknown_type" [] "Z"
          = .error ("Unsupported diagram_type: " ++ "unknown_type") :=
  ⟨by decide, by decide,
    c9_dispatcher_amended char_count_measure "unknown_type" [] "Z" (by decide) (by decide)⟩

/-- C10: both normalizers copy the top-level title argument into the
normalized spec verbatim, for every raw spec and every title, including the
empty title. -/
theorem c10_title_passthrough (spec : PyDict) (t : String) :
    (normalize_technical_route_spec spec t).title = t
      ∧ (normalize_research_framework_spec spec t).title = t :=
  ⟨rfl, rfl⟩
